import Mathlib

/-!
Shallow embedding of `src/code_analysis.py`.

The program walks a parsed Python AST with an `ast.NodeVisitor` subclass
`CodeStructureAnalyzer` holding three containers: `functions` and `classes`
(Python dicts from name to optional docstring) and `dependencies` (a Python
set of strings).  We embed the AST fragment the visitor can distinguish as a
mutual inductive type, Python dicts as association lists whose assignment
overwrites in place, Python sets as duplicate-free lists, and the visitor as
explicit state passing.  The CLI driver (`analyze_file` and the `__main__`
block) is embedded with the fallible steps (file read, `ast.parse`) as
`Except` values and the observable process effects recorded in a
`ProcessResult` record.
-/

set_option autoImplicit false

namespace CodeAnalysis

/-- An `ast.alias` node: `name` is the imported name, `asname` the optional
rename after `as` (the source never reads `asname`). -/
structure ImportAlias where
  name : String
  asname : Option String
deriving DecidableEq, Repr

mutual
/-- The statement nodes `CodeStructureAnalyzer` distinguishes.  `functionDef`,
`classDef`, `importStmt` and `importFrom` have handlers (lines 27, 40, 53, 64);
`asyncFunctionDef` and `otherNode` have none, so `ast.NodeVisitor.visit` falls
back to `generic_visit`, which only recurses into the children.  The
`docstring` field embeds the value of `ast.get_docstring` on the node:
`none` when the body starts with no string literal, `some s` otherwise. -/
inductive Node where
  | functionDef (name : String) (docstring : Option String) (body : NodeList) : Node
  | asyncFunctionDef (name : String) (docstring : Option String) (body : NodeList) : Node
  | classDef (name : String) (docstring : Option String) (body : NodeList) : Node
  | importStmt (names : List ImportAlias) : Node
  | importFrom (moduleName : Option String) (names : List ImportAlias) : Node
  | otherNode (children : NodeList) : Node

/-- A list of statement nodes (a node body, or the module body). -/
inductive NodeList where
  | nil : NodeList
  | cons (head : Node) (tail : NodeList) : NodeList
end

/-- Python dict assignment `m[k] = v`: overwrite in place when the key is
present, append otherwise. -/
def dictSet (m : List (String × Option String)) (k : String) (v : Option String) :
    List (String × Option String) :=
  match m with
  | [] => [(k, v)]
  | (k₀, v₀) :: rest => if k₀ = k then (k, v) :: rest else (k₀, v₀) :: dictSet rest k v

/-- Python dict lookup `m.get(k)`: `some v` when key `k` holds value `v`. -/
def dictGet (m : List (String × Option String)) (k : String) : Option (Option String) :=
  match m with
  | [] => none
  | (k₀, v₀) :: rest => if k₀ = k then some v₀ else dictGet rest k

/-- Python set insertion `s.add(x)`: no change when the element is present. -/
def setAdd (s : List String) (x : String) : List String :=
  if x ∈ s then s else s ++ [x]

/-- The mutable state of `CodeStructureAnalyzer` (lines 21-25 of the source):
two name-to-docstring dicts and the dependency set. -/
structure CodeStructureAnalyzer where
  functions : List (String × Option String)
  classes : List (String × Option String)
  dependencies : List String
deriving DecidableEq, Repr

/-- `CodeStructureAnalyzer.__init__`: all three containers start empty. -/
def CodeStructureAnalyzer.empty : CodeStructureAnalyzer :=
  { functions := [], classes := [], dependencies := [] }

/-- The f-string conversion of `node.module` in `visit_ImportFrom` line 72:
Python formats the value `None` as the literal text "None". -/
def strOfModule : Option String → String
  | none => "None"
  | some m => m

mutual
/-- `CodeStructureAnalyzer.visit` on one node: dispatch on the node kind,
run the handler if one exists, and recurse into the children
(`generic_visit` is called by every handler, and directly when no handler
exists). -/
def visit (a : CodeStructureAnalyzer) (n : Node) : CodeStructureAnalyzer :=
  match n with
  | .functionDef name doc body =>
      visitList { a with functions := dictSet a.functions name doc } body
  | .asyncFunctionDef _ _ body => visitList a body
  | .classDef name doc body =>
      visitList { a with classes := dictSet a.classes name doc } body
  | .importStmt names =>
      let deps := names.foldl (fun s al => setAdd s al.name) a.dependencies
      { a with dependencies := deps }
  | .importFrom mod names =>
      let deps :=
        names.foldl (fun s al => setAdd s (strOfModule mod ++ "." ++ al.name)) a.dependencies
      { a with dependencies := deps }
  | .otherNode children => visitList a children

/-- Visit the nodes of a body in order, threading the analyzer state. -/
def visitList (a : CodeStructureAnalyzer) (l : NodeList) : CodeStructureAnalyzer :=
  match l with
  | .nil => a
  | .cons n rest => visitList (visit a n) rest
end

/-- One extraction run: a fresh `CodeStructureAnalyzer` visits the parsed
module body (lines 86-87 of the source). -/
def runAnalyzer (body : NodeList) : CodeStructureAnalyzer :=
  visitList CodeStructureAnalyzer.empty body

mutual
/-- The pre-order list of `(name, docstring)` pairs of the `FunctionDef`
nodes a traversal of `n` visits, in visit order. -/
def funcsOf : Node → List (String × Option String)
  | .functionDef name doc body => (name, doc) :: funcsOfList body
  | .asyncFunctionDef _ _ body => funcsOfList body
  | .classDef _ _ body => funcsOfList body
  | .importStmt _ => []
  | .importFrom _ _ => []
  | .otherNode c => funcsOfList c

/-- `funcsOf` over a body, in order. -/
def funcsOfList : NodeList → List (String × Option String)
  | .nil => []
  | .cons n rest => funcsOf n ++ funcsOfList rest
end

mutual
/-- The pre-order list of `(name, docstring)` pairs of the `ClassDef` nodes
a traversal of `n` visits, in visit order. -/
def classesOf : Node → List (String × Option String)
  | .functionDef _ _ body => classesOfList body
  | .asyncFunctionDef _ _ body => classesOfList body
  | .classDef name doc body => (name, doc) :: classesOfList body
  | .importStmt _ => []
  | .importFrom _ _ => []
  | .otherNode c => classesOfList c

/-- `classesOf` over a body, in order. -/
def classesOfList : NodeList → List (String × Option String)
  | .nil => []
  | .cons n rest => classesOf n ++ classesOfList rest
end

/-- Left-biased choice on optional values. -/
def firstSome (x y : Option (Option String)) : Option (Option String) :=
  match x with
  | some v => some v
  | none => y

/-- The value attached to the LAST occurrence of key `k` in an ordered list
of assignments. -/
def lastValue (k : String) : List (String × Option String) → Option (Option String)
  | [] => none
  | p :: rest => firstSome (lastValue k rest) (if p.1 = k then some p.2 else none)

/-- The observable effects of one process run: exit status, whether the
usage line was printed, whether the input file was read, whether the PDF
report was written, and the extraction result handed to the renderer. -/
structure ProcessResult where
  exitCode : Nat
  usagePrinted : Bool
  fileRead : Bool
  reportWritten : Bool
  result : Option CodeStructureAnalyzer
deriving DecidableEq, Repr

/-- `analyze_file` (lines 76-91): read the file, parse it, run a fresh
analyzer over the tree, then write the PDF report.  `readResult` embeds the
outcome of `open(file_path).read()` and `parse` the outcome of `ast.parse`;
an `Except.error` is an uncaught exception, which terminates the process
with a nonzero status before any later step runs. -/
def analyze_file (readResult : Except Unit String)
    (parse : String → Except Unit NodeList) (file_path : String) : ProcessResult :=
  match readResult with
  | .error _ =>
      { exitCode := 1, usagePrinted := false, fileRead := false,
        reportWritten := false, result := none }
  | .ok code =>
      match parse code with
      | .error _ =>
          { exitCode := 1, usagePrinted := false, fileRead := true,
            reportWritten := false, result := none }
      | .ok tree =>
          let analyzer := visitList CodeStructureAnalyzer.empty tree
          let _ := file_path
          { exitCode := 0, usagePrinted := false, fileRead := true,
            reportWritten := true, result := some analyzer }

/-- The `__main__` block (lines 151-157): with `len(sys.argv) != 2` print the
usage line and exit with status 1; otherwise run `analyze_file` on the single
argument. -/
def mainEntry (argv : List String) (readResult : Except Unit String)
    (parse : String → Except Unit NodeList) : ProcessResult :=
  if argv.length ≠ 2 then
    { exitCode := 1, usagePrinted := true, fileRead := false,
      reportWritten := false, result := none }
  else
    analyze_file readResult parse (argv.getD 1 "")

/-- A module body defining `f` twice and `C` twice, used to exercise the
overwrite behavior on duplicate names. -/
def dupSample : NodeList :=
  .cons (.functionDef "f" (some "one") .nil)
    (.cons (.functionDef "f" (some "two") .nil)
      (.cons (.classDef "C" none .nil)
        (.cons (.classDef "C" (some "x") .nil) .nil)))

/-- A module body with a class nested in a function and a function nested in
that class, used to exercise flat capture of nested definitions. -/
def nestedSample : NodeList :=
  .cons (.functionDef "f" none
    (.cons (.classDef "C" none (.cons (.functionDef "g" none .nil) .nil)) .nil)) .nil

/-! ### Basic algebra of the containers -/

theorem firstSome_none_right (x : Option (Option String)) : firstSome x none = x := by
  cases x <;> rfl

theorem firstSome_assoc (x y z : Option (Option String)) :
    firstSome (firstSome x y) z = firstSome x (firstSome y z) := by
  cases x <;> cases y <;> rfl

theorem lastValue_append (k : String) (l₁ l₂ : List (String × Option String)) :
    lastValue k (l₁ ++ l₂) = firstSome (lastValue k l₂) (lastValue k l₁) := by
  induction l₁ with
  | nil => simp [lastValue, firstSome_none_right]
  | cons p rest ih =>
      simp only [List.cons_append, lastValue, List.append_eq]
      rw [ih, firstSome_assoc]

theorem dictGet_dictSet (m : List (String × Option String)) (k : String) (v : Option String)
    (q : String) :
    dictGet (dictSet m k v) q = if k = q then some v else dictGet m q := by
  induction m with
  | nil => simp [dictSet, dictGet]
  | cons p rest ih =>
      obtain ⟨k₀, v₀⟩ := p
      by_cases h₀ : k₀ = k
      · subst h₀
        simp only [dictSet, if_pos rfl, dictGet]
        by_cases hq : k₀ = q <;> simp [hq]
      · simp only [dictSet, if_neg h₀, dictGet, ih]
        by_cases hq : k₀ = q
        · subst hq
          have : ¬ k = k₀ := fun h => h₀ h.symm
          simp [this]
        · simp [hq]

theorem mem_keys_dictSet (m : List (String × Option String)) (k : String) (v : Option String)
    (q : String) (h : q ∈ (dictSet m k v).map Prod.fst) :
    q = k ∨ q ∈ m.map Prod.fst := by
  induction m with
  | nil => simpa [dictSet] using h
  | cons p rest ih =>
      obtain ⟨k₀, v₀⟩ := p
      by_cases h₀ : k₀ = k
      · subst h₀
        simpa [dictSet] using h
      · simp only [dictSet, if_neg h₀, List.map_cons, List.mem_cons] at h
        rcases h with h | h
        · exact Or.inr (by simp [h])
        · rcases ih h with h | h
          · exact Or.inl h
          · exact Or.inr (by simp [h])

theorem dictSet_keys_nodup (m : List (String × Option String)) (k : String) (v : Option String)
    (h : (m.map Prod.fst).Nodup) : ((dictSet m k v).map Prod.fst).Nodup := by
  induction m with
  | nil => simp [dictSet]
  | cons p rest ih =>
      obtain ⟨k₀, v₀⟩ := p
      simp only [List.map_cons, List.nodup_cons] at h
      by_cases h₀ : k₀ = k
      · subst h₀
        simpa [dictSet, List.nodup_cons] using h
      · simp only [dictSet, if_neg h₀, List.map_cons, List.nodup_cons]
        refine ⟨fun hmem => ?_, ih h.2⟩
        rcases mem_keys_dictSet rest k v k₀ hmem with h₁ | h₁
        · exact h₀ h₁
        · exact h.1 h₁

theorem mem_keys_of_dictGet (m : List (String × Option String)) (k : String) (d : Option String)
    (h : dictGet m k = some d) : k ∈ m.map Prod.fst := by
  induction m with
  | nil => simp [dictGet] at h
  | cons p rest ih =>
      obtain ⟨k₀, v₀⟩ := p
      by_cases h₀ : k₀ = k
      · simp [h₀]
      · simp only [dictGet, if_neg h₀] at h
        simp [ih h]

theorem lastValue_isSome_iff (k : String) (l : List (String × Option String)) :
    (lastValue k l).isSome = true ↔ k ∈ l.map Prod.fst := by
  induction l with
  | nil => simp [lastValue]
  | cons p rest ih =>
      obtain ⟨k₀, v₀⟩ := p
      simp only [lastValue, List.map_cons, List.mem_cons]
      cases hrest : lastValue k rest with
      | some v =>
          simp only [firstSome]
          constructor
          · intro _
            exact Or.inr (ih.mp (by simp [hrest]))
          · intro _
            simp
      | none =>
          simp only [firstSome]
          by_cases h₀ : k₀ = k
          · simp [h₀]
          · have : k ∉ rest.map Prod.fst := fun hm => by
              have := ih.mpr hm
              simp [hrest] at this
            simp only [if_neg h₀]
            constructor
            · intro h
              simp at h
            · intro h
              rcases h with h | h
              · exact absurd h.symm h₀
              · exact absurd h this

theorem mem_setAdd_self (s : List String) (x : String) : x ∈ setAdd s x := by
  unfold setAdd
  by_cases h : x ∈ s <;> simp [h]

theorem mem_setAdd_of_mem (s : List String) (x y : String) (h : y ∈ s) : y ∈ setAdd s x := by
  unfold setAdd
  by_cases hx : x ∈ s <;> simp [hx, h]

theorem setAdd_nodup (s : List String) (x : String) (h : s.Nodup) : (setAdd s x).Nodup := by
  unfold setAdd
  by_cases hx : x ∈ s
  · simpa [hx]
  · simp only [if_neg hx]
    refine List.Nodup.append h (List.nodup_singleton x) ?_
    intro a ha hax
    rw [List.mem_singleton] at hax
    subst hax
    exact hx ha

theorem mem_foldl_setAdd_of_mem (f : ImportAlias → String) (names : List ImportAlias) :
    ∀ (s : List String) (y : String), y ∈ s →
      y ∈ names.foldl (fun t al => setAdd t (f al)) s := by
  induction names with
  | nil => intro s y h; simpa using h
  | cons a₀ rest ih =>
      intro s y h
      simp only [List.foldl_cons]
      exact ih _ y (mem_setAdd_of_mem _ _ _ h)

theorem mem_foldl_setAdd (f : ImportAlias → String) (names : List ImportAlias) :
    ∀ (s : List String) (al : ImportAlias), al ∈ names →
      f al ∈ names.foldl (fun t a => setAdd t (f a)) s := by
  induction names with
  | nil => intro s al h; simp at h
  | cons a₀ rest ih =>
      intro s al h
      simp only [List.foldl_cons]
      rcases List.mem_cons.mp h with h | h
      · subst h
        exact mem_foldl_setAdd_of_mem f rest _ _ (mem_setAdd_self s (f al))
      · exact ih _ al h

theorem foldl_setAdd_nodup (f : ImportAlias → String) (names : List ImportAlias) :
    ∀ (s : List String), s.Nodup → (names.foldl (fun t a => setAdd t (f a)) s).Nodup := by
  induction names with
  | nil => intro s h; simpa using h
  | cons a₀ rest ih =>
      intro s h
      simp only [List.foldl_cons]
      exact ih _ (setAdd_nodup _ _ h)

/-! ### What a traversal does to the `functions` and `classes` dicts -/

mutual
/-- After visiting one node, the `functions` dict answers with the docstring
of the last `FunctionDef` named `k` visited inside it, falling back to the
prior state. -/
theorem dictGet_visit_functions (a : CodeStructureAnalyzer) (n : Node) (k : String) :
    dictGet (visit a n).functions k =
      firstSome (lastValue k (funcsOf n)) (dictGet a.functions k) := by
  cases n with
  | functionDef name doc body =>
      show dictGet (visitList { a with functions := dictSet a.functions name doc } body).functions k
        = _
      rw [dictGet_visitList_functions, dictGet_dictSet]
      show _ = firstSome (lastValue k ((name, doc) :: funcsOfList body)) (dictGet a.functions k)
      simp only [lastValue]
      rw [firstSome_assoc]
      congr 1
      by_cases h : name = k <;> simp [h, firstSome]
  | asyncFunctionDef name doc body =>
      show dictGet (visitList a body).functions k = _
      rw [dictGet_visitList_functions]
      rfl
  | classDef name doc body =>
      show dictGet (visitList { a with classes := dictSet a.classes name doc } body).functions k
        = _
      rw [dictGet_visitList_functions]
      rfl
  | importStmt names => rfl
  | importFrom mod names => rfl
  | otherNode c =>
      show dictGet (visitList a c).functions k = _
      rw [dictGet_visitList_functions]
      rfl

/-- `dictGet_visit_functions` extended over a node list. -/
theorem dictGet_visitList_functions (a : CodeStructureAnalyzer) (l : NodeList) (k : String) :
    dictGet (visitList a l).functions k =
      firstSome (lastValue k (funcsOfList l)) (dictGet a.functions k) := by
  cases l with
  | nil => rfl
  | cons n rest =>
      show dictGet (visitList (visit a n) rest).functions k = _
      rw [dictGet_visitList_functions, dictGet_visit_functions]
      show _ = firstSome (lastValue k (funcsOf n ++ funcsOfList rest)) (dictGet a.functions k)
      rw [lastValue_append, firstSome_assoc]
end

mutual
/-- After visiting one node, the `classes` dict answers with the docstring
of the last `ClassDef` named `k` visited inside it, falling back to the
prior state. -/
theorem dictGet_visit_classes (a : CodeStructureAnalyzer) (n : Node) (k : String) :
    dictGet (visit a n).classes k =
      firstSome (lastValue k (classesOf n)) (dictGet a.classes k) := by
  cases n with
  | functionDef name doc body =>
      show dictGet (visitList { a with functions := dictSet a.functions name doc } body).classes k
        = _
      rw [dictGet_visitList_classes]
      rfl
  | asyncFunctionDef name doc body =>
      show dictGet (visitList a body).classes k = _
      rw [dictGet_visitList_classes]
      rfl
  | classDef name doc body =>
      show dictGet (visitList { a with classes := dictSet a.classes name doc } body).classes k
        = _
      rw [dictGet_visitList_classes, dictGet_dictSet]
      show _ = firstSome (lastValue k ((name, doc) :: classesOfList body)) (dictGet a.classes k)
      simp only [lastValue]
      rw [firstSome_assoc]
      congr 1
      by_cases h : name = k <;> simp [h, firstSome]
  | importStmt names => rfl
  | importFrom mod names => rfl
  | otherNode c =>
      show dictGet (visitList a c).classes k = _
      rw [dictGet_visitList_classes]
      rfl

/-- `dictGet_visit_classes` extended over a node list. -/
theorem dictGet_visitList_classes (a : CodeStructureAnalyzer) (l : NodeList) (k : String) :
    dictGet (visitList a l).classes k =
      firstSome (lastValue k (classesOfList l)) (dictGet a.classes k) := by
  cases l with
  | nil => rfl
  | cons n rest =>
      show dictGet (visitList (visit a n) rest).classes k = _
      rw [dictGet_visitList_classes, dictGet_visit_classes]
      show _ = firstSome (lastValue k (classesOf n ++ classesOfList rest)) (dictGet a.classes k)
      rw [lastValue_append, firstSome_assoc]
end

mutual
/-- Visiting preserves duplicate-freeness of the keys of both dicts. -/
theorem visit_keys_nodup (a : CodeStructureAnalyzer) (n : Node)
    (hf : (a.functions.map Prod.fst).Nodup) (hc : (a.classes.map Prod.fst).Nodup) :
    ((visit a n).functions.map Prod.fst).Nodup ∧ ((visit a n).classes.map Prod.fst).Nodup := by
  cases n with
  | functionDef name doc body =>
      exact visitList_keys_nodup _ body (dictSet_keys_nodup _ _ _ hf) hc
  | asyncFunctionDef name doc body => exact visitList_keys_nodup a body hf hc
  | classDef name doc body =>
      exact visitList_keys_nodup _ body hf (dictSet_keys_nodup _ _ _ hc)
  | importStmt names => exact ⟨hf, hc⟩
  | importFrom mod names => exact ⟨hf, hc⟩
  | otherNode c => exact visitList_keys_nodup a c hf hc

/-- `visit_keys_nodup` extended over a node list. -/
theorem visitList_keys_nodup (a : CodeStructureAnalyzer) (l : NodeList)
    (hf : (a.functions.map Prod.fst).Nodup) (hc : (a.classes.map Prod.fst).Nodup) :
    ((visitList a l).functions.map Prod.fst).Nodup ∧
      ((visitList a l).classes.map Prod.fst).Nodup := by
  cases l with
  | nil => exact ⟨hf, hc⟩
  | cons n rest =>
      have h := visit_keys_nodup a n hf hc
      exact visitList_keys_nodup (visit a n) rest h.1 h.2
end

/-- A full run answers `functions` queries by the last visited assignment. -/
theorem dictGet_runAnalyzer_functions (body : NodeList) (n : String) :
    dictGet (runAnalyzer body).functions n = lastValue n (funcsOfList body) := by
  have h := dictGet_visitList_functions CodeStructureAnalyzer.empty body n
  rw [show dictGet CodeStructureAnalyzer.empty.functions n = none from rfl,
      firstSome_none_right] at h
  exact h

/-- A full run answers `classes` queries by the last visited assignment. -/
theorem dictGet_runAnalyzer_classes (body : NodeList) (n : String) :
    dictGet (runAnalyzer body).classes n = lastValue n (classesOfList body) := by
  have h := dictGet_visitList_classes CodeStructureAnalyzer.empty body n
  rw [show dictGet CodeStructureAnalyzer.empty.classes n = none from rfl,
      firstSome_none_right] at h
  exact h

/-! ### The claims -/

/-- C1: for every from-import statement visited with module path `x` and
imported symbols given by `names`, the dependency set afterwards contains
the string `x ++ "." ++ name` for each imported symbol, and (being a set)
it stays duplicate-free, so it holds one entry per imported symbol. -/
theorem importFrom_adds_module_dot_symbol (a : CodeStructureAnalyzer) (x : String)
    (names : List ImportAlias) :
    (∀ al ∈ names,
      x ++ "." ++ al.name ∈ (visit a (.importFrom (some x) names)).dependencies) ∧
    (a.dependencies.Nodup → (visit a (.importFrom (some x) names)).dependencies.Nodup) := by
  constructor
  · intro al h
    exact mem_foldl_setAdd (fun al => x ++ "." ++ al.name) names a.dependencies al h
  · intro h
    exact foldl_setAdd_nodup (fun al => x ++ "." ++ al.name) names a.dependencies h

theorem importFrom_adds_module_dot_symbol_witness :
    "x.y" ∈ (visit CodeStructureAnalyzer.empty
        (.importFrom (some "x") [⟨"y", none⟩, ⟨"z", none⟩])).dependencies ∧
    "x.z" ∈ (visit CodeStructureAnalyzer.empty
        (.importFrom (some "x") [⟨"y", none⟩, ⟨"z", none⟩])).dependencies ∧
    (visit CodeStructureAnalyzer.empty
        (.importFrom (some "x") [⟨"y", none⟩, ⟨"z", none⟩])).dependencies.Nodup :=
  ⟨(importFrom_adds_module_dot_symbol CodeStructureAnalyzer.empty "x" _).1
      ⟨"y", none⟩ (by simp),
   (importFrom_adds_module_dot_symbol CodeStructureAnalyzer.empty "x" _).1
      ⟨"z", none⟩ (by simp),
   (importFrom_adds_module_dot_symbol CodeStructureAnalyzer.empty "x" _).2 List.nodup_nil⟩

/-- C2: after a run, a name is a key of `functions` (resp. `classes`) exactly
when a function (resp. class) definition node with that name occurs somewhere
in the visited tree, at any nesting depth: nested definitions are captured
flatly because every handler recurses into the body. -/
theorem map_keys_iff_visited_definition (body : NodeList) (n : String) :
    ((dictGet (runAnalyzer body).functions n).isSome = true ↔
      n ∈ (funcsOfList body).map Prod.fst) ∧
    ((dictGet (runAnalyzer body).classes n).isSome = true ↔
      n ∈ (classesOfList body).map Prod.fst) := by
  rw [dictGet_runAnalyzer_functions, dictGet_runAnalyzer_classes]
  exact ⟨lastValue_isSome_iff n (funcsOfList body), lastValue_isSome_iff n (classesOfList body)⟩

theorem map_keys_iff_visited_definition_witness :
    (dictGet (runAnalyzer nestedSample).functions "g").isSome = true ∧
    (dictGet (runAnalyzer nestedSample).classes "C").isSome = true :=
  ⟨(map_keys_iff_visited_definition nestedSample "g").1.mpr (by decide),
   (map_keys_iff_visited_definition nestedSample "C").2.mpr (by decide)⟩

/-- C3: for a from-import statement whose module path is absent (a relative
`from . import y`), the extractor adds the malformed key "None." followed by
the symbol name, because the f-string formats the value `None` as text. -/
theorem importFrom_none_module_malformed_key (a : CodeStructureAnalyzer)
    (names : List ImportAlias) :
    ∀ al ∈ names, "None." ++ al.name ∈ (visit a (.importFrom none names)).dependencies := by
  intro al h
  exact mem_foldl_setAdd (fun al => "None." ++ al.name) names a.dependencies al h

theorem importFrom_none_module_malformed_key_witness :
    "None.y" ∈ (visit CodeStructureAnalyzer.empty
        (.importFrom none [⟨"y", none⟩])).dependencies :=
  importFrom_none_module_malformed_key CodeStructureAnalyzer.empty [⟨"y", none⟩]
    ⟨"y", none⟩ (by simp)

/-- C4: the extraction pass is a deterministic function of the parsed tree:
two invocations of `analyze_file` on the same source text produce the same
`ProcessResult`, and the extraction result is exactly a fresh empty analyzer
run over the parsed tree. -/
theorem analyze_file_deterministic (contents : String)
    (parse : String → Except Unit NodeList) (p q : String) :
    analyze_file (.ok contents) parse p = analyze_file (.ok contents) parse q ∧
    (analyze_file (.ok contents) parse p).result =
      (parse contents).toOption.map (fun tree => visitList CodeStructureAnalyzer.empty tree) := by
  cases h : parse contents <;> simp [analyze_file, h, Except.toOption]

/-- C5: when the same function (resp. class) name is assigned more than once,
the map holds exactly one entry for that name, and its value is the
docstring of the definition visited last. -/
theorem duplicate_definition_last_visit_wins (body : NodeList) (n : String) :
    (∀ d : Option String, lastValue n (funcsOfList body) = some d →
        ((runAnalyzer body).functions.map Prod.fst).count n = 1 ∧
        dictGet (runAnalyzer body).functions n = some d) ∧
    (∀ d : Option String, lastValue n (classesOfList body) = some d →
        ((runAnalyzer body).classes.map Prod.fst).count n = 1 ∧
        dictGet (runAnalyzer body).classes n = some d) := by
  have hmaps := visitList_keys_nodup CodeStructureAnalyzer.empty body
    List.nodup_nil List.nodup_nil
  constructor
  · intro d hd
    have hget : dictGet (runAnalyzer body).functions n = some d := by
      rw [dictGet_runAnalyzer_functions]
      exact hd
    exact ⟨List.count_eq_one_of_mem hmaps.1 (mem_keys_of_dictGet _ n d hget), hget⟩
  · intro d hd
    have hget : dictGet (runAnalyzer body).classes n = some d := by
      rw [dictGet_runAnalyzer_classes]
      exact hd
    exact ⟨List.count_eq_one_of_mem hmaps.2 (mem_keys_of_dictGet _ n d hget), hget⟩

theorem duplicate_definition_last_visit_wins_witness :
    (((runAnalyzer dupSample).functions.map Prod.fst).count "f" = 1 ∧
      dictGet (runAnalyzer dupSample).functions "f" = some (some "two")) ∧
    (((runAnalyzer dupSample).classes.map Prod.fst).count "C" = 1 ∧
      dictGet (runAnalyzer dupSample).classes "C" = some (some "x")) :=
  ⟨(duplicate_definition_last_visit_wins dupSample "f").1 (some "two") rfl,
   (duplicate_definition_last_visit_wins dupSample "C").2 (some "x") rfl⟩

/-- C6: absence of a docstring is stored as the absent marker while an
empty-string docstring is stored as the empty string, in both maps, and the
two stored values are distinguishable. -/
theorem docstring_absent_vs_empty (a : CodeStructureAnalyzer) (name : String) :
    dictGet (visit a (.functionDef name none .nil)).functions name = some none ∧
    dictGet (visit a (.functionDef name (some "") .nil)).functions name = some (some "") ∧
    dictGet (visit a (.classDef name none .nil)).classes name = some none ∧
    dictGet (visit a (.classDef name (some "") .nil)).classes name = some (some "") ∧
    (some (none : Option String) ≠ some (some "")) := by
  refine ⟨?_, ?_, ?_, ?_, by simp⟩
  · show dictGet (dictSet a.functions name none) name = some none
    rw [dictGet_dictSet]
    simp
  · show dictGet (dictSet a.functions name (some "")) name = some (some "")
    rw [dictGet_dictSet]
    simp
  · show dictGet (dictSet a.classes name none) name = some none
    rw [dictGet_dictSet]
    simp
  · show dictGet (dictSet a.classes name (some "")) name = some (some "")
    rw [dictGet_dictSet]
    simp

theorem docstring_absent_vs_empty_witness :
    dictGet (visit CodeStructureAnalyzer.empty
        (.functionDef "f" none .nil)).functions "f" = some none ∧
    dictGet (visit CodeStructureAnalyzer.empty
        (.functionDef "f" (some "") .nil)).functions "f" = some (some "") ∧
    dictGet (visit CodeStructureAnalyzer.empty
        (.classDef "C" none .nil)).classes "C" = some none ∧
    dictGet (visit CodeStructureAnalyzer.empty
        (.classDef "C" (some "") .nil)).classes "C" = some (some "") ∧
    (some (none : Option String) ≠ some (some "")) :=
  ⟨(docstring_absent_vs_empty CodeStructureAnalyzer.empty "f").1,
   (docstring_absent_vs_empty CodeStructureAnalyzer.empty "f").2.1,
   (docstring_absent_vs_empty CodeStructureAnalyzer.empty "C").2.2.1,
   (docstring_absent_vs_empty CodeStructureAnalyzer.empty "C").2.2.2.1,
   (docstring_absent_vs_empty CodeStructureAnalyzer.empty "C").2.2.2.2⟩

/-- C7: when the source text fails to parse, the run stops with a nonzero
exit status before the report step: no report file is written. -/
theorem parse_failure_no_report (contents : String)
    (parse : String → Except Unit NodeList) (path : String)
    (h : parse contents = .error ()) :
    (analyze_file (.ok contents) parse path).reportWritten = false ∧
    (analyze_file (.ok contents) parse path).exitCode ≠ 0 := by
  simp [analyze_file, h]

theorem parse_failure_no_report_witness :
    (analyze_file (.ok "def broken(:") (fun _ => .error ()) "input.py").reportWritten = false ∧
    (analyze_file (.ok "def broken(:") (fun _ => .error ()) "input.py").exitCode ≠ 0 :=
  parse_failure_no_report "def broken(:" (fun _ => .error ()) "input.py" rfl

/-- C8: invoked with an argument count other than exactly one positional
argument, the program prints the usage line and exits with status 1 without
reading any file or writing any report. -/
theorem usage_error_exits_one (argv : List String) (readResult : Except Unit String)
    (parse : String → Except Unit NodeList) (h : argv.length ≠ 2) :
    mainEntry argv readResult parse =
      { exitCode := 1, usagePrinted := true, fileRead := false,
        reportWritten := false, result := none } := by
  simp [mainEntry, h]

theorem usage_error_exits_one_witness :
    mainEntry ["code_analysis.py"] (.ok "") (fun _ => .ok .nil) =
      { exitCode := 1, usagePrinted := true, fileRead := false,
        reportWritten := false, result := none } :=
  usage_error_exits_one ["code_analysis.py"] (.ok "") (fun _ => .ok .nil) (by decide)

/-- C9: an async function definition is traversed generically without being
recorded: visiting it equals visiting its body, and on a fresh analyzer it
adds no entry to `functions` or `classes`. -/
theorem asyncFunctionDef_not_recorded (a : CodeStructureAnalyzer) (name : String)
    (doc : Option String) (body : NodeList) :
    visit a (.asyncFunctionDef name doc body) = visitList a body ∧
    dictGet (visit CodeStructureAnalyzer.empty
      (.asyncFunctionDef name doc .nil)).functions name = none ∧
    dictGet (visit CodeStructureAnalyzer.empty
      (.asyncFunctionDef name doc .nil)).classes name = none :=
  ⟨rfl, rfl, rfl⟩

/-- C10: import statements record the original imported name and never the
`as` alias: each name field is added to the dependency set, and the analyzer
state is unchanged when every `asname` field is erased. -/
theorem import_records_original_name_not_alias (a : CodeStructureAnalyzer)
    (m : Option String) (names : List ImportAlias) :
    (∀ al ∈ names, al.name ∈ (visit a (.importStmt names)).dependencies) ∧
    (∀ al ∈ names,
      strOfModule m ++ "." ++ al.name ∈ (visit a (.importFrom m names)).dependencies) ∧
    (visit a (.importStmt names)).dependencies =
      (visit a (.importStmt (names.map fun al =>
        ({ name := al.name, asname := none } : ImportAlias)))).dependencies ∧
    (visit a (.importFrom m names)).dependencies =
      (visit a (.importFrom m (names.map fun al =>
        ({ name := al.name, asname := none } : ImportAlias)))).dependencies := by
  refine ⟨?_, ?_, ?_, ?_⟩
  · intro al h
    exact mem_foldl_setAdd (fun al => al.name) names a.dependencies al h
  · intro al h
    exact mem_foldl_setAdd (fun al => strOfModule m ++ "." ++ al.name) names a.dependencies al h
  · show names.foldl (fun s al => setAdd s al.name) a.dependencies
        = (names.map fun al => ({ name := al.name, asname := none } : ImportAlias)).foldl
            (fun s al => setAdd s al.name) a.dependencies
    rw [List.foldl_map]
  · show names.foldl (fun s al => setAdd s (strOfModule m ++ "." ++ al.name)) a.dependencies
        = (names.map fun al => ({ name := al.name, asname := none } : ImportAlias)).foldl
            (fun s al => setAdd s (strOfModule m ++ "." ++ al.name)) a.dependencies
    rw [List.foldl_map]

theorem import_records_original_name_not_alias_witness :
    "numpy" ∈ (visit CodeStructureAnalyzer.empty
        (.importStmt [{ name := "numpy", asname := some "np" }])).dependencies ∧
    "x.y" ∈ (visit CodeStructureAnalyzer.empty
        (.importFrom (some "x") [{ name := "y", asname := some "z" }])).dependencies ∧
    "np" ∉ (visit CodeStructureAnalyzer.empty
        (.importStmt [{ name := "numpy", asname := some "np" }])).dependencies :=
  ⟨(import_records_original_name_not_alias CodeStructureAnalyzer.empty none _).1
      { name := "numpy", asname := some "np" } (by simp),
   (import_records_original_name_not_alias CodeStructureAnalyzer.empty (some "x") _).2.1
      { name := "y", asname := some "z" } (by simp),
   by decide⟩

end CodeAnalysis
